import Mathlib

/-!
Verification of the prophecy-viewer core: the BSB index builder
(`src/js/bsb_parser.js`, `parseAndIndexBsbData`) and the reference resolver
(`src/js/data_fetcher.js`, `getVerseText`), shallowly embedded in Lean.

JavaScript values reaching these functions are JSON-derived, so they are
modelled by the inductive `JValue` (with an extra `undefV` constructor for the
result of reading an absent property).  JavaScript objects are modelled as
association lists with own-property lookup; property access on `null` or
`undefined` raises a `TypeError`, modelled by `Except Unit`.  Number fields
are modelled by `Int` (integer-valued JSON numbers; the references and data
the program handles use integer chapter/verse numbers).  Unicode case mapping
of `toLowerCase` is modelled on the ASCII range, which covers every book name
and alias key the program compares.
-/

/-- Whitespace class of JavaScript: the characters matched by the regexp
class `\s` (and removed by `String.prototype.trim`). -/
def isJsWs (c : Char) : Bool :=
  c.val = 9 || c.val = 10 || c.val = 11 || c.val = 12 || c.val = 13 ||
  c.val = 32 || c.val = 160 || c.val = 0x1680 ||
  (0x2000 ≤ c.val && c.val ≤ 0x200a) ||
  c.val = 0x2028 || c.val = 0x2029 || c.val = 0x202f || c.val = 0x205f ||
  c.val = 0x3000 || c.val = 0xfeff

/-- The regexp class `\d` of JavaScript (ASCII digits). -/
def isDigitC (c : Char) : Bool := '0' ≤ c && c ≤ '9'

/-- The regexp class `[A-Za-z]`. -/
def isAlphaC (c : Char) : Bool := ('A' ≤ c && c ≤ 'Z') || ('a' ≤ c && c ≤ 'z')

/-- ASCII lower-casing of one character (`String.prototype.toLowerCase`
restricted to the alphabet the program's keys use). -/
def lowerC (c : Char) : Char :=
  if 'A' ≤ c && c ≤ 'Z' then Char.ofNat (c.toNat + 32) else c

/-- Leading-whitespace removal on character lists. -/
def trimLeftC (cs : List Char) : List Char := cs.dropWhile isJsWs

/-- Trailing-whitespace removal on character lists. -/
def trimRightC (cs : List Char) : List Char :=
  (cs.reverse.dropWhile isJsWs).reverse

/-- `String.prototype.trim`. -/
def jsTrim (s : String) : String := String.mk (trimRightC (trimLeftC s.data))

/-- `name.toLowerCase().replace(/\s+/g, '')`: the raw lookup key derived from
a book name (lower-case, all whitespace stripped). -/
def stripLowerKey (s : String) : String :=
  String.mk ((s.data.map lowerC).filter (fun c => !isJsWs c))

/-- Association-list lookup (own-property read on a JS object). -/
def alGet {α : Type} : List (String × α) → String → Option α
  | [], _ => none
  | (k, v) :: rest, key => if k = key then some v else alGet rest key

/-- Association-list update (JS property assignment: overwrite the existing
binding in place, else append). -/
def alSet {α : Type} : List (String × α) → String → α → List (String × α)
  | [], k, v => [(k, v)]
  | (k', v') :: rest, k, v =>
    if k' = k then (k, v) :: rest else (k', v') :: alSet rest k v

/-- JSON-derived JavaScript values.  `undefV` is the value of an absent
property read; it cannot occur inside parsed JSON input, but uniformly
modelling reads keeps the embedding total. -/
inductive JValue where
  | undefV : JValue
  | null : JValue
  | bool : Bool → JValue
  | num : Int → JValue
  | str : String → JValue
  | arr : List JValue → JValue
  | obj : List (String × JValue) → JValue

/-- JavaScript truthiness of a `JValue`. -/
def jsTruthy : JValue → Bool
  | .undefV => false
  | .null => false
  | .bool b => b
  | .num n => !(n == 0)
  | .str s => !(s == "")
  | .arr _ => true
  | .obj _ => true

/-- Total property read, only ever applied to non-nullish receivers:
own properties of objects; `undefined` on primitives and absent keys. -/
def getFieldD : JValue → String → JValue
  | .obj fs, k => (alGet fs k).getD .undefV
  | _, _ => .undefV

/-- Property read as executed by JS: a `TypeError` (modelled by
`Except.error ()`) on `null`/`undefined` receivers, else `getFieldD`. -/
def getField : JValue → String → Except Unit JValue
  | .undefV, _ => Except.error ()
  | .null, _ => Except.error ()
  | v, k => Except.ok (getFieldD v k)

/-- `true` exactly when a property read on the value would not throw. -/
def notNullish : JValue → Bool
  | .undefV => false
  | .null => false
  | _ => true

/-- The fixed alias table `bookNameMappings` of `bsb_parser.js`. -/
def bookNameMappings : List (String × String) :=
  [("psalms", "psalms"),
   ("songofsongs", "songofsongs"),
   ("songofsolomon", "songofsongs"),
   ("revelationofjohn", "revelation"),
   ("isamuel", "1samuel"),
   ("firstsamuel", "1samuel"),
   ("iisamuel", "2samuel"),
   ("secondsamuel", "2samuel"),
   ("ikings", "1kings"),
   ("firstkings", "1kings"),
   ("iikings", "2kings"),
   ("secondkings", "2kings"),
   ("ichronicles", "1chronicles"),
   ("firstchronicles", "1chronicles"),
   ("iichronicles", "2chronicles"),
   ("secondchronicles", "2chronicles"),
   ("icorinthians", "1corinthians"),
   ("firstcorinthians", "1corinthians"),
   ("iicorinthians", "2corinthians"),
   ("secondcorinthians", "2corinthians"),
   ("ithessalonians", "1thessalonians"),
   ("firstthessalonians", "1thessalonians"),
   ("iithessalonians", "2thessalonians"),
   ("secondthessalonians", "2thessalonians"),
   ("itimothy", "1timothy"),
   ("firsttimothy", "1timothy"),
   ("iitimothy", "2timothy"),
   ("secondtimothy", "2timothy"),
   ("ipeter", "1peter"),
   ("firstpeter", "1peter"),
   ("iipeter", "2peter"),
   ("secondpeter", "2peter"),
   ("ijohn", "1john"),
   ("firstjohn", "1john"),
   ("iijohn", "2john"),
   ("secondjohn", "2john"),
   ("iiijohn", "3john"),
   ("thirdjohn", "3john")]

/-- `bookNameMappings[rawBookKey] || rawBookKey`: use the alias target when
the stripped name is bound in the table (and truthy, which every entry is),
else keep the stripped name itself. -/
def aliasApply (k : String) : String :=
  match alGet bookNameMappings k with
  | some v => if v = "" then k else v
  | none => k

/-- The canonical book key the indexer stores a book under
(`bsb_parser.js` lines 81-83). -/
def finalKeyOf (n : String) : String := aliasApply (stripLowerKey n)

/-- The three-level index: book key to chapter-number string to
verse-number string to verse text. -/
abbrev ChapterIdx := List (String × String)
abbrev BookIdx := List (String × ChapterIdx)
abbrev VerseIdx := List (String × BookIdx)

/-- Distinguishes the failure modes of `parseAndIndexBsbData` (all three are
re-thrown by its catch block as a generic `Error` whose message identifies
the case): the missing-books structure check, the empty-index check, and a
`TypeError` raised by a property read on a `null` chapter/verse entry. -/
inductive BuildError where
  | structureError : BuildError
  | emptyIndexError : BuildError
  | typeError : BuildError
deriving DecidableEq, Repr

/-- The `chapter.verses.forEach` loop of `bsb_parser.js` (lines 94-98):
verses with a numeric `verse` and string `text` are stored (text trimmed,
number stringified), others are skipped; reading a field of a nullish verse
entry throws. -/
def indexVersesGo (acc : ChapterIdx) : List JValue → Except Unit ChapterIdx
  | [] => Except.ok acc
  | v :: rest =>
    match getField v "verse" with
    | Except.error e => Except.error e
    | Except.ok vv =>
      match vv with
      | JValue.num n =>
        match getField v "text" with
        | Except.error e => Except.error e
        | Except.ok (JValue.str t) =>
          indexVersesGo (alSet acc (toString n) (jsTrim t)) rest
        | Except.ok _ => indexVersesGo acc rest
      | _ => indexVersesGo acc rest

/-- The `book.chapters.forEach` loop (lines 90-100): chapters with a numeric
`chapter` and an array `verses` contribute their verse map when it is
non-empty; others are skipped; reading a field of a nullish chapter entry
throws. -/
def indexChaptersGo (acc : BookIdx) : List JValue → Except Unit BookIdx
  | [] => Except.ok acc
  | ch :: rest =>
    match getField ch "chapter" with
    | Except.error e => Except.error e
    | Except.ok cv =>
      match cv with
      | JValue.num n =>
        match getField ch "verses" with
        | Except.error e => Except.error e
        | Except.ok (JValue.arr vs) =>
          match indexVersesGo [] vs with
          | Except.error e => Except.error e
          | Except.ok ci =>
            indexChaptersGo (if ci.isEmpty then acc else alSet acc (toString n) ci) rest
        | Except.ok _ => indexChaptersGo acc rest
      | _ => indexChaptersGo acc rest

/-- The `jsonData.books.forEach` loop (lines 74-105): falsy books and books
without a string `name` or array `chapters` are skipped; a book's chapter map
is stored under its canonical key when non-empty (overwriting any earlier
binding of the same key). -/
def indexBooksGo (acc : VerseIdx) : List JValue → Except Unit VerseIdx
  | [] => Except.ok acc
  | b :: rest =>
    if jsTruthy b = false then indexBooksGo acc rest
    else
      match getFieldD b "name" with
      | JValue.str name =>
        match getFieldD b "chapters" with
        | JValue.arr chs =>
          match indexChaptersGo [] chs with
          | Except.error e => Except.error e
          | Except.ok bi =>
            indexBooksGo
              (if bi.isEmpty then acc else alSet acc (finalKeyOf name) bi) rest
        | _ => indexBooksGo acc rest
      | _ => indexBooksGo acc rest

/-- `parseAndIndexBsbData` of `bsb_parser.js`: structure check, the book
loop, then the empty-index check. -/
def parseAndIndexBsbData (jsonData : JValue) : Except BuildError VerseIdx :=
  if jsTruthy jsonData = false then Except.error BuildError.structureError
  else
    match getFieldD jsonData "books" with
    | JValue.arr books =>
      match indexBooksGo [] books with
      | Except.error _ => Except.error BuildError.typeError
      | Except.ok idx =>
        if idx.isEmpty then Except.error BuildError.emptyIndexError
        else Except.ok idx
    | _ => Except.error BuildError.structureError

/-- One-or-more character class match (`[A-Za-z]+`, `\d+`): the greedy
non-empty prefix satisfying `p`, with the rest of the input. -/
def takeWhile1 (p : Char → Bool) : List Char → Option (List Char × List Char)
  | [] => none
  | c :: rest =>
    if p c then some (c :: rest.takeWhile p, rest.dropWhile p) else none

/-- The `(?:\s[A-Za-z]+)*` part of the reference regexp: greedily consume
whitespace-separated further words of the book name.  Fuelled recursion; the
fuel is the input length, which the loop never exhausts. -/
def takeWordsF : Nat → List Char → List Char × List Char
  | 0, cs => ([], cs)
  | fuel + 1, cs =>
    match cs with
    | [] => ([], [])
    | w :: rest =>
      if isJsWs w then
        match takeWhile1 isAlphaC rest with
        | some (letters, rest2) =>
          let (more, rest3) := takeWordsF fuel rest2
          (w :: (letters ++ more), rest3)
        | none => ([], cs)
      else ([], cs)

/-- The capture groups of the reference regexp
`/^(\d?\s?[A-Za-z]+(?:\s[A-Za-z]+)*)\s?(\d+):(\d+)(?:-(\d+))?$/`. -/
structure RefMatch where
  book : String
  chapter : String
  verse : String
  endVerse : Option String
deriving DecidableEq, Repr

/-- Anchored match of the reference regexp against a character list.  The
regexp's character classes are pairwise disjoint, so its backtracking search
is equivalent to this deterministic greedy parse. -/
def parseRefChars (cs : List Char) : Option RefMatch :=
  let (d, s1) :=
    match cs with
    | c :: rest => if isDigitC c then ([c], rest) else ([], cs)
    | [] => ([], [])
  let (w, s2) :=
    match s1 with
    | c :: rest => if isJsWs c then ([c], rest) else ([], s1)
    | [] => ([], [])
  match takeWhile1 isAlphaC s2 with
  | none => none
  | some (letters, s3) =>
    let (words, s4) := takeWordsF s3.length s3
    let book : List Char := d ++ w ++ letters ++ words
    let s5 :=
      match s4 with
      | c :: rest => if isJsWs c then rest else s4
      | [] => []
    match takeWhile1 isDigitC s5 with
    | none => none
    | some (chap, s6) =>
      match s6 with
      | ':' :: s7 =>
        match takeWhile1 isDigitC s7 with
        | none => none
        | some (vers, s8) =>
          match s8 with
          | [] => some ⟨String.mk book, String.mk chap, String.mk vers, none⟩
          | '-' :: s9 =>
            match takeWhile1 isDigitC s9 with
            | some (ev, []) =>
              some ⟨String.mk book, String.mk chap, String.mk vers, some (String.mk ev)⟩
            | _ => none
          | _ => none
      | _ => none

/-- `cleanRef.match(regexp)` on a string. -/
def parseRef (s : String) : Option RefMatch := parseRefChars s.data

/-- Position of the first `,`: the part before it and the part after it. -/
def splitFirstComma : List Char → Option (List Char × List Char)
  | [] => none
  | c :: rest =>
    if c = ',' then some ([], rest)
    else
      match splitFirstComma rest with
      | some (a, b) => some (c :: a, b)
      | none => none

/-- Lines 102-107 of `data_fetcher.js`: trim the reference; if it contains a
comma keep only the (re-trimmed) part before the first one, recording that a
comma was seen. -/
def cleanOf (rs : String) : String × Bool :=
  match splitFirstComma (jsTrim rs).data with
  | some (pre, _) => (jsTrim (String.mk pre), true)
  | none => (jsTrim rs, false)

/-- `_parsedBsbData[bookName]?.[chapterNum]?.[verseNum]`. -/
def chainGet (bi : BookIdx) (c v : String) : Option String :=
  match alGet bi c with
  | none => none
  | some ci => alGet ci v

/-- Full three-level lookup of a verse text. -/
def lookup3 (idx : VerseIdx) (b c v : String) : Option String :=
  match alGet idx b with
  | none => none
  | some bi => chainGet bi c v

/-- Lines 108-137 of `data_fetcher.js`: regexp parse, raw-key book lookup,
chapter/verse lookup (note the truthiness test, which also rejects an empty
stored text), and the truncation marker for ranges and comma references.
`rs` is the original argument, used verbatim in the diagnostics. -/
def resolveRef (idx : VerseIdx) (rs cleanRef : String) (hasComma : Bool) : String :=
  match parseRef cleanRef with
  | none => "[Invalid Ref Format: " ++ rs ++ "]"
  | some m =>
    let bookName := stripLowerKey m.book
    match alGet idx bookName with
    | none => "[Book Key Not Found: " ++ bookName ++ "]"
    | some bookIdx =>
      match chainGet bookIdx m.chapter m.verse with
      | none => "[Verse/Chapter Not Found: " ++ rs ++ "]"
      | some t =>
        if t = "" then "[Verse/Chapter Not Found: " ++ rs ++ "]"
        else if m.endVerse.isSome || hasComma then t ++ " [...]" else t

/-- `getVerseText` of `data_fetcher.js`.  `data` is the module variable
`_parsedBsbData` (`none` while no build has succeeded); `refString` is
`none` for a `null`/`undefined` argument.  The body of the `try` throws for
no string input, so the `[Lookup Error]` catch branch is unreachable here. -/
def getVerseText (data : Option VerseIdx) (refString : Option String) : String :=
  match data with
  | none => "[BSB Data Not Ready]"
  | some idx =>
    match refString with
    | none => "[N/A]"
    | some rs =>
      if rs = "" then "[N/A]"
      else resolveRef idx rs (cleanOf rs).1 (cleanOf rs).2

/-- The module-scoped state of `ProphecyApp.dataFetcher`. -/
structure FetcherState where
  availableCategories : List String
  parsedBsbData : Option VerseIdx
  translationName : JValue

/-- `isBsbDataReady` of `data_fetcher.js`: `!!_parsedBsbData`. -/
def isBsbDataReady (st : FetcherState) : Bool := st.parsedBsbData.isSome

/-- `fetchAndParseBsbData` of `data_fetcher.js` as a state transformer.
`fetchResult` is `none` when the fetch (or its JSON decoding) fails, else
the decoded document.  Returns the new module state and whether the
operation succeeded (a `false` models the re-thrown rejection). -/
def fetchAndParseBsbData (st : FetcherState) (fetchResult : Option JValue) :
    FetcherState × Bool :=
  match fetchResult with
  | none =>
    (⟨st.availableCategories, none, JValue.str "[Error Loading]"⟩, false)
  | some jsonData =>
    let tv := getFieldD jsonData "translation"
    let tname := if jsTruthy tv then tv else JValue.str "Unknown Translation"
    match parseAndIndexBsbData jsonData with
    | Except.ok idx => (⟨st.availableCategories, some idx, tname⟩, true)
    | Except.error _ =>
      (⟨st.availableCategories, none, JValue.str "[Error Loading]"⟩, false)

/-- Heap of JS arrays for the category-list aliasing model: a store of
arrays addressed by allocation index. -/
abbrev Heap := List (List String)

/-- Dereference an array. -/
def hGet : Heap → Nat → Option (List String)
  | [], _ => none
  | x :: _, 0 => some x
  | _ :: rest, n + 1 => hGet rest n

/-- In-place mutation of the array behind a reference (models any
combination of element adds/removes/replacements). -/
def hSet : Heap → Nat → List String → Heap
  | [], _, _ => []
  | _ :: rest, 0, v => v :: rest
  | x :: rest, n + 1, v => x :: hSet rest n v

/-- `getAvailableCategories` of `data_fetcher.js`:
`return [..._availableCategories]` — allocate a fresh array holding a copy
of the module array's elements and return the new reference. -/
def getAvailableCategories (h : Heap) (catsRef : Nat) : Heap × Nat :=
  (h ++ [(hGet h catsRef).getD []], h.length)

/-- Whether every verse entry of a chapter can be field-read without a
`TypeError` (no `null`/`undefined` array elements). -/
def versesSafe (vs : List JValue) : Bool := vs.all notNullish

/-- Whether processing one chapter entry reaches no nullish field read:
the entry itself must be non-nullish, and when its `chapter` is numeric and
its `verses` an array, every verse entry must be non-nullish. -/
def chapterSafe (ch : JValue) : Bool :=
  notNullish ch &&
    (match getFieldD ch "chapter" with
     | JValue.num _ =>
       match getFieldD ch "verses" with
       | JValue.arr vs => versesSafe vs
       | _ => true
     | _ => true)

/-- `chapterSafe` over a chapters array. -/
def chaptersSafe (chs : List JValue) : Bool := chs.all chapterSafe

/-- Whether processing one book entry reaches no nullish field read.
Falsy books and books without a string `name` or array `chapters` are
skipped before any throwing read. -/
def bookSafe (b : JValue) : Bool :=
  if jsTruthy b = false then true
  else
    match getFieldD b "name" with
    | JValue.str _ =>
      match getFieldD b "chapters" with
      | JValue.arr chs => chaptersSafe chs
      | _ => true
    | _ => true

/-- `bookSafe` over a books array. -/
def booksSafe (bs : List JValue) : Bool := bs.all bookSafe

/-- Reference verse loop of the graceful-skip build described by the spec:
identical to `indexVersesGo` except that a nullish verse entry is skipped
instead of aborting the build. -/
def skipVerses (acc : ChapterIdx) : List JValue → ChapterIdx
  | [] => acc
  | v :: rest =>
    match getFieldD v "verse" with
    | JValue.num n =>
      match getFieldD v "text" with
      | JValue.str t => skipVerses (alSet acc (toString n) (jsTrim t)) rest
      | _ => skipVerses acc rest
    | _ => skipVerses acc rest

/-- Reference chapter loop of the graceful-skip build. -/
def skipChapters (acc : BookIdx) : List JValue → BookIdx
  | [] => acc
  | ch :: rest =>
    match getFieldD ch "chapter" with
    | JValue.num n =>
      match getFieldD ch "verses" with
      | JValue.arr vs =>
        let ci := skipVerses [] vs
        skipChapters (if ci.isEmpty then acc else alSet acc (toString n) ci) rest
      | _ => skipChapters acc rest
    | _ => skipChapters acc rest

/-- Reference book loop of the graceful-skip build. -/
def skipBooks (acc : VerseIdx) : List JValue → VerseIdx
  | [] => acc
  | b :: rest =>
    if jsTruthy b = false then skipBooks acc rest
    else
      match getFieldD b "name" with
      | JValue.str name =>
        match getFieldD b "chapters" with
        | JValue.arr chs =>
          let bi := skipChapters [] chs
          skipBooks (if bi.isEmpty then acc else alSet acc (finalKeyOf name) bi) rest
        | _ => skipBooks acc rest
      | _ => skipBooks acc rest

/-- Modelled from the spec: the graceful-skip build of section 4.1, which
skips every malformed book/chapter/verse entry and only fails on the
structure and empty-index checks.  Used as the reference point that
`parseAndIndexBsbData` is compared against. -/
def buildIndexSpec (j : JValue) : Except BuildError VerseIdx :=
  if jsTruthy j = false then Except.error BuildError.structureError
  else
    match getFieldD j "books" with
    | JValue.arr bs =>
      let idx := skipBooks [] bs
      if idx.isEmpty then Except.error BuildError.emptyIndexError
      else Except.ok idx
    | _ => Except.error BuildError.structureError

/-- Structured well-formed verse, chapter and book data, used to state
theorems about documents of the shape `bsb_parser.js` expects. -/
abbrev SVerse := Int × String
abbrev SChapter := Int × List SVerse
abbrev SBook := String × List SChapter

/-- `{ verse: n, text: t }`. -/
def mkVerseJ (n : Int) (t : String) : JValue :=
  JValue.obj [("verse", JValue.num n), ("text", JValue.str t)]

/-- `{ chapter: c, verses: [...] }`. -/
def mkChapterJ (c : Int) (vs : List SVerse) : JValue :=
  JValue.obj [("chapter", JValue.num c),
              ("verses", JValue.arr (vs.map (fun p => mkVerseJ p.1 p.2)))]

/-- `{ name: n, chapters: [...] }`. -/
def mkBookJ (n : String) (cs : List SChapter) : JValue :=
  JValue.obj [("name", JValue.str n),
              ("chapters", JValue.arr (cs.map (fun p => mkChapterJ p.1 p.2)))]

/-- A translation document `{ translation: "BSB", books: [...] }` built from
structured book data. -/
def mkDocJ (bs : List SBook) : JValue :=
  JValue.obj [("translation", JValue.str "BSB"),
              ("books", JValue.arr (bs.map (fun p => mkBookJ p.1 p.2)))]

/-- Verse map a structured chapter's verses build to. -/
def chIdxGoS (acc : ChapterIdx) : List SVerse → ChapterIdx
  | [] => acc
  | (n, t) :: rest => chIdxGoS (alSet acc (toString n) (jsTrim t)) rest

/-- Chapter map a structured book's chapters build to. -/
def bookIdxGoS (acc : BookIdx) : List SChapter → BookIdx
  | [] => acc
  | (c, vs) :: rest =>
    let ci := chIdxGoS [] vs
    bookIdxGoS (if ci.isEmpty then acc else alSet acc (toString c) ci) rest

/-- Index a structured document's books build to. -/
def booksGoS (acc : VerseIdx) : List SBook → VerseIdx
  | [] => acc
  | (n, cs) :: rest =>
    let bi := bookIdxGoS [] cs
    booksGoS (if bi.isEmpty then acc else alSet acc (finalKeyOf n) bi) rest

theorem alGet_alSet_self {α : Type} (l : List (String × α)) (k : String) (v : α) :
    alGet (alSet l k v) k = some v := by
  induction l with
  | nil => simp [alGet, alSet]
  | cons p rest ih =>
    obtain ⟨k', v'⟩ := p
    by_cases h : k' = k
    · simp [alSet, alGet, h]
    · simp [alSet, alGet, h, ih]

theorem alGet_alSet_ne {α : Type} (l : List (String × α)) (k k' : String) (v : α)
    (h : k ≠ k') : alGet (alSet l k v) k' = alGet l k' := by
  induction l with
  | nil => simp [alGet, alSet, h]
  | cons p rest ih =>
    obtain ⟨k0, v0⟩ := p
    by_cases h0 : k0 = k
    · simp [alSet, alGet, h0, h]
    · simp only [alSet, if_neg h0]
      by_cases h1 : k0 = k'
      · simp [alGet, h1]
      · simp [alGet, h1, ih]

theorem alSet_isEmpty {α : Type} (l : List (String × α)) (k : String) (v : α) :
    (alSet l k v).isEmpty = false := by
  cases l with
  | nil => simp [alSet]
  | cons p rest =>
    obtain ⟨k', v'⟩ := p
    by_cases h : k' = k <;> simp [alSet, h]

theorem getField_of_notNullish (v : JValue) (k : String) (h : notNullish v = true) :
    getField v k = Except.ok (getFieldD v k) := by
  cases v <;> simp_all [getField, notNullish]

theorem getField_of_nullish (v : JValue) (k : String) (h : notNullish v = false) :
    getField v k = Except.error () := by
  cases v <;> simp_all [getField, notNullish]

theorem indexVersesGo_safe (vs : List JValue) :
    ∀ acc, versesSafe vs = true →
      indexVersesGo acc vs = Except.ok (skipVerses acc vs) := by
  induction vs with
  | nil => intro acc _; rfl
  | cons v rest ih =>
    intro acc h
    rw [versesSafe, List.all_cons, Bool.and_eq_true] at h
    obtain ⟨hv, hrest⟩ := h
    rw [indexVersesGo, skipVerses, getField_of_notNullish v _ hv,
      getField_of_notNullish v _ hv]
    cases hvv : getFieldD v "verse" <;>
      cases hts : getFieldD v "text" <;>
      simp only [] <;> exact ih _ hrest

theorem indexVersesGo_err (vs : List JValue) :
    ∀ acc, versesSafe vs = false →
      indexVersesGo acc vs = Except.error () := by
  induction vs with
  | nil => intro acc h; simp [versesSafe] at h
  | cons v rest ih =>
    intro acc h
    rw [versesSafe, List.all_cons] at h
    cases hv : notNullish v with
    | false =>
      rw [indexVersesGo, getField_of_nullish v _ hv]
    | true =>
      rw [hv, Bool.true_and] at h
      rw [indexVersesGo, getField_of_notNullish v _ hv,
        getField_of_notNullish v _ hv]
      cases hvv : getFieldD v "verse" <;>
        cases hts : getFieldD v "text" <;>
        simp only [] <;> exact ih _ h

theorem indexChaptersGo_safe (chs : List JValue) :
    ∀ acc, chaptersSafe chs = true →
      indexChaptersGo acc chs = Except.ok (skipChapters acc chs) := by
  induction chs with
  | nil => intro acc _; rfl
  | cons ch rest ih =>
    intro acc h
    rw [chaptersSafe, List.all_cons, Bool.and_eq_true] at h
    obtain ⟨hch, hrest⟩ := h
    rw [chapterSafe, Bool.and_eq_true] at hch
    obtain ⟨hnn, hinner⟩ := hch
    rw [indexChaptersGo, skipChapters, getField_of_notNullish ch _ hnn,
      getField_of_notNullish ch _ hnn]
    cases hcv : getFieldD ch "chapter" with
    | num n =>
      rw [hcv] at hinner
      cases hvs : getFieldD ch "verses" <;> rw [hvs] at hinner <;>
        simp only []
      case arr vs =>
        rw [indexVersesGo_safe vs [] hinner]
        exact ih _ hrest
      all_goals exact ih _ hrest
    | _ =>
      simp only []
      all_goals exact ih _ hrest

theorem indexChaptersGo_err (chs : List JValue) :
    ∀ acc, chaptersSafe chs = false →
      indexChaptersGo acc chs = Except.error () := by
  induction chs with
  | nil => intro acc h; simp [chaptersSafe] at h
  | cons ch rest ih =>
    intro acc h
    rw [chaptersSafe, List.all_cons] at h
    cases hch : chapterSafe ch with
    | false =>
      rw [chapterSafe] at hch
      cases hnn : notNullish ch with
      | false => rw [indexChaptersGo, getField_of_nullish ch _ hnn]
      | true =>
        rw [hnn, Bool.true_and] at hch
        rw [indexChaptersGo, getField_of_notNullish ch _ hnn,
          getField_of_notNullish ch _ hnn]
        cases hcv : getFieldD ch "chapter" <;> rw [hcv] at hch <;>
          simp only [] <;> try simp at hch
        case num n =>
          cases hvs : getFieldD ch "verses" <;> rw [hvs] at hch <;>
            simp only [] <;> try simp at hch
          case arr vs => rw [indexVersesGo_err vs [] hch]
    | true =>
      rw [hch, Bool.true_and] at h
      rw [chapterSafe, Bool.and_eq_true] at hch
      obtain ⟨hnn, hinner⟩ := hch
      rw [indexChaptersGo, getField_of_notNullish ch _ hnn,
        getField_of_notNullish ch _ hnn]
      cases hcv : getFieldD ch "chapter" with
      | num n =>
        rw [hcv] at hinner
        cases hvs : getFieldD ch "verses" <;> rw [hvs] at hinner <;>
          simp only []
        case arr vs =>
          rw [indexVersesGo_safe vs [] hinner]
          exact ih _ h
        all_goals exact ih _ h
      | _ =>
        simp only []
        all_goals exact ih _ h

theorem indexBooksGo_safe (bs : List JValue) :
    ∀ acc, booksSafe bs = true →
      indexBooksGo acc bs = Except.ok (skipBooks acc bs) := by
  induction bs with
  | nil => intro acc _; rfl
  | cons b rest ih =>
    intro acc h
    rw [booksSafe, List.all_cons, Bool.and_eq_true] at h
    obtain ⟨hb, hrest⟩ := h
    rw [indexBooksGo, skipBooks]
    cases htr : jsTruthy b with
    | false => simp only [htr]; exact ih _ hrest
    | true =>
      rw [bookSafe, htr] at hb
      simp only [htr, Bool.false_eq_true, if_neg, reduceIte]
      cases hn : getFieldD b "name" <;> rw [hn] at hb <;> simp only []
      case str name =>
        cases hc : getFieldD b "chapters" <;> rw [hc] at hb <;> simp only []
        case arr chs =>
          rw [indexChaptersGo_safe chs [] hb]
          exact ih _ hrest
        all_goals exact ih _ hrest
      all_goals exact ih _ hrest

theorem indexBooksGo_err (bs : List JValue) :
    ∀ acc, booksSafe bs = false →
      indexBooksGo acc bs = Except.error () := by
  induction bs with
  | nil => intro acc h; simp [booksSafe] at h
  | cons b rest ih =>
    intro acc h
    rw [booksSafe, List.all_cons, bookSafe] at h
    cases htr : jsTruthy b with
    | false =>
      rw [htr, if_pos rfl, Bool.true_and] at h
      rw [indexBooksGo, htr, if_pos rfl]
      exact ih _ h
    | true =>
      rw [htr, if_neg (by decide : Not (true = false))] at h
      rw [indexBooksGo, htr, if_neg (by decide : Not (true = false))]
      cases hn : getFieldD b "name" with
      | str name =>
        rw [hn] at h
        simp only [] at h ⊢
        cases hc : getFieldD b "chapters" with
        | arr chs =>
          rw [hc] at h
          simp only [] at h ⊢
          cases hcs : chaptersSafe chs with
          | false => rw [indexChaptersGo_err chs [] hcs]
          | true =>
            rw [hcs, Bool.true_and] at h
            rw [indexChaptersGo_safe chs [] hcs]
            exact ih _ h
        | undefV => rw [hc] at h; simp only [Bool.true_and] at h ⊢; exact ih _ h
        | null => rw [hc] at h; simp only [Bool.true_and] at h ⊢; exact ih _ h
        | bool v => rw [hc] at h; simp only [Bool.true_and] at h ⊢; exact ih _ h
        | num v => rw [hc] at h; simp only [Bool.true_and] at h ⊢; exact ih _ h
        | str v => rw [hc] at h; simp only [Bool.true_and] at h ⊢; exact ih _ h
        | obj v => rw [hc] at h; simp only [Bool.true_and] at h ⊢; exact ih _ h
      | undefV => rw [hn] at h; simp only [Bool.true_and] at h ⊢; exact ih _ h
      | null => rw [hn] at h; simp only [Bool.true_and] at h ⊢; exact ih _ h
      | bool v => rw [hn] at h; simp only [Bool.true_and] at h ⊢; exact ih _ h
      | num v => rw [hn] at h; simp only [Bool.true_and] at h ⊢; exact ih _ h
      | arr v => rw [hn] at h; simp only [Bool.true_and] at h ⊢; exact ih _ h
      | obj v => rw [hn] at h; simp only [Bool.true_and] at h ⊢; exact ih _ h

/-- A two-book document whose second book has a `null` entry in its
`chapters` array (legal JSON), and whose first book is fully well-formed. -/
def nullChapterDoc : JValue :=
  JValue.obj [("books", JValue.arr
    [mkBookJ "Genesis" [(1, [(1, "In the beginning")])],
     JValue.obj [("name", JValue.str "Exodus"),
                 ("chapters", JValue.arr [JValue.null])]])]

/-- C2, counterexample.  The claim says the build fails only with
`StructureError` or `EmptyIndexError` and skips every malformed
book/chapter/verse entry.  On `nullChapterDoc` — which has a books array and
a fully valid first book — the field read `chapter.chapter` on the `null`
chapter entry throws a `TypeError` that aborts the whole build, while the
spec's graceful-skip build would succeed with the first book indexed. -/
theorem build_null_chapter_counterexample :
    parseAndIndexBsbData nullChapterDoc = Except.error BuildError.typeError ∧
    buildIndexSpec nullChapterDoc =
      Except.ok [("genesis", [("1", [("1", "In the beginning")])])] :=
  ⟨rfl, rfl⟩

/-- C2, amended.  Complete characterization of the builder: it fails with
`StructureError` exactly when the input is falsy or its `books` field is not
an array; otherwise, when no reachable chapter/verse entry is nullish, it
skips every malformed entry and fails only with `EmptyIndexError` on an
empty result (returning exactly the graceful-skip index); but a nullish
chapter or verse entry that is reached aborts the build with a `TypeError`. -/
theorem build_failure_characterization (j : JValue) :
    parseAndIndexBsbData j =
      (if jsTruthy j = false then Except.error BuildError.structureError
       else
         match getFieldD j "books" with
         | JValue.arr bs =>
           if booksSafe bs = false then Except.error BuildError.typeError
           else if (skipBooks [] bs).isEmpty then
             Except.error BuildError.emptyIndexError
           else Except.ok (skipBooks [] bs)
         | _ => Except.error BuildError.structureError) := by
  rw [parseAndIndexBsbData]
  cases htr : jsTruthy j with
  | false => rw [if_pos rfl, if_pos rfl]
  | true =>
    rw [if_neg (by decide : Not (true = false)),
      if_neg (by decide : Not (true = false))]
    cases hbk : getFieldD j "books" with
    | arr bs =>
      simp only []
      cases hsafe : booksSafe bs with
      | false => rw [indexBooksGo_err bs [] hsafe, if_pos rfl]
      | true =>
        rw [indexBooksGo_safe bs [] hsafe,
          if_neg (by decide : Not (true = false))]
    | undefV => rfl
    | null => rfl
    | bool v => rfl
    | num v => rfl
    | str v => rfl
    | obj v => rfl

/-- C3.  For every index state and every (possibly absent or malformed)
reference string, `getVerseText` evaluates to a string — it never throws —
and that string is either a stored verse text (possibly with the truncation
marker appended) or one of the six bracketed diagnostics.  (`[Lookup Error]`
is the catch-all for the `try` block, whose body cannot throw on string
input, so it is listed but never produced.) -/
theorem resolver_result_shape (data : Option VerseIdx) (ref : Option String) :
    getVerseText data ref = "[BSB Data Not Ready]" ∨
    getVerseText data ref = "[N/A]" ∨
    (∃ r, getVerseText data ref = "[Invalid Ref Format: " ++ r ++ "]") ∨
    (∃ k, getVerseText data ref = "[Book Key Not Found: " ++ k ++ "]") ∨
    (∃ r, getVerseText data ref = "[Verse/Chapter Not Found: " ++ r ++ "]") ∨
    getVerseText data ref = "[Lookup Error]" ∨
    (∃ idx t b c v, data = some idx ∧ lookup3 idx b c v = some t ∧
       (getVerseText data ref = t ∨ getVerseText data ref = t ++ " [...]")) := by
  cases data with
  | none => exact Or.inl rfl
  | some idx =>
    cases ref with
    | none => exact Or.inr (Or.inl rfl)
    | some rs =>
      by_cases hrs : rs = ""
      · right; left; simp [getVerseText, hrs]
      · have hgv : getVerseText (some idx) (some rs) =
            resolveRef idx rs (cleanOf rs).1 (cleanOf rs).2 := by
          simp [getVerseText, hrs]
        rw [hgv, resolveRef]
        cases hm : parseRef (cleanOf rs).1 with
        | none => right; right; left; exact ⟨rs, rfl⟩
        | some m =>
          simp only []
          cases hbk : alGet idx (stripLowerKey m.book) with
          | none => right; right; right; left; exact ⟨stripLowerKey m.book, rfl⟩
          | some bi =>
            simp only []
            cases hcg : chainGet bi m.chapter m.verse with
            | none => right; right; right; right; left; exact ⟨rs, rfl⟩
            | some t =>
              simp only []
              by_cases ht : t = ""
              · rw [if_pos ht]
                right; right; right; right; left; exact ⟨rs, rfl⟩
              · rw [if_neg ht]
                right; right; right; right; right; right
                refine ⟨idx, t, stripLowerKey m.book, m.chapter, m.verse, rfl, ?_, ?_⟩
                · simp [lookup3, hbk, hcg]
                · by_cases hcond : (m.endVerse.isSome || (cleanOf rs).2) = true
                  · rw [if_pos hcond]; exact Or.inr rfl
                  · rw [if_neg hcond]; exact Or.inl rfl

/-- C6, counterexample.  The claim quantifies over every index state, but
`getVerseText` tests `_parsedBsbData` before it tests the reference: with
the index not ready, the empty reference yields the not-ready marker, not
`[N/A]`. -/
theorem empty_ref_not_ready_counterexample :
    getVerseText none (some "") = "[BSB Data Not Ready]" ∧
    ("[BSB Data Not Ready]" : String) ≠ "[N/A]" :=
  ⟨rfl, by decide⟩

/-- C6, amended.  With a ready index, the empty and the absent reference
both return `[N/A]`; with no index, the not-ready check fires first and both
return `[BSB Data Not Ready]`.  No input throws (the embedding is total). -/
theorem empty_ref_returns_na (idx : VerseIdx) :
    getVerseText (some idx) (some "") = "[N/A]" ∧
    getVerseText (some idx) none = "[N/A]" ∧
    getVerseText none (some "") = "[BSB Data Not Ready]" ∧
    getVerseText none none = "[BSB Data Not Ready]" :=
  ⟨rfl, rfl, rfl, rfl⟩

/-- C1.  Whenever the cleaned reference matches the pattern, the resolver
looks the book up under the raw stripped-lowercased book-name portion
(`stripLowerKey`), not under its alias image: if that raw key is absent the
result is the `BookNotFound` marker for the raw key, even when the index
does contain the data under the alias-substituted key used at build time. -/
theorem resolver_bypasses_alias_table (idx : VerseIdx) (rs : String)
    (m : RefMatch) (bi : BookIdx)
    (hrs : rs ≠ "")
    (hm : parseRef (cleanOf rs).1 = some m)
    (hraw : alGet idx (stripLowerKey m.book) = none)
    (halias : alGet idx (aliasApply (stripLowerKey m.book)) = some bi) :
    getVerseText (some idx) (some rs) =
      "[Book Key Not Found: " ++ stripLowerKey m.book ++ "]" := by
  simp only [getVerseText, if_neg hrs]
  rw [resolveRef, hm]
  simp only [hraw]

/-- Witness for C1: the index stores Song of Solomon under the alias target
`songofsongs`, yet `"Song of Solomon 4:7"` resolves to the `BookNotFound`
marker for the raw key `songofsolomon`. -/
theorem resolver_bypasses_alias_table_witness :
    getVerseText (some [("songofsongs", [("4", [("7", "You are beautiful")])])])
        (some "Song of Solomon 4:7") =
      "[Book Key Not Found: songofsolomon]" :=
  resolver_bypasses_alias_table
    [("songofsongs", [("4", [("7", "You are beautiful")])])]
    "Song of Solomon 4:7"
    ⟨"Song of Solomon", "4", "7", none⟩
    [("4", [("7", "You are beautiful")])]
    (by decide) (by decide) (by decide) (by decide)

/-- No comma occurs in the character list. -/
def commaFree (cs : List Char) : Bool := cs.all (fun c => !(c = ','))

theorem dropWhile_append_cons (p : Char → Bool) (a : List Char) (c : Char)
    (b : List Char) (hc : p c = false) :
    List.dropWhile p (a ++ c :: b) = List.dropWhile p a ++ c :: b := by
  induction a with
  | nil => simp [List.dropWhile, hc]
  | cons x xs ih =>
    cases hx : p x with
    | true => simpa [List.dropWhile, hx] using ih
    | false => simp [List.dropWhile, hx]

theorem dropWhile_self_idem (p : Char → Bool) (l : List Char) :
    List.dropWhile p (List.dropWhile p l) = List.dropWhile p l := by
  induction l with
  | nil => rfl
  | cons x xs ih =>
    cases hx : p x with
    | true => simpa [List.dropWhile, hx] using ih
    | false => simp [List.dropWhile, hx]

theorem trimRightC_append_cons (a : List Char) (c : Char) (b : List Char)
    (hc : isJsWs c = false) :
    trimRightC (a ++ c :: b) = a ++ c :: trimRightC b := by
  rw [trimRightC, trimRightC]
  rw [show a ++ c :: b = a ++ [c] ++ b by simp]
  rw [List.reverse_append, List.reverse_append]
  simp only [List.reverse_cons, List.reverse_nil, List.nil_append,
    List.singleton_append]
  rw [dropWhile_append_cons isJsWs b.reverse c a.reverse hc]
  simp

theorem trimLeftC_commaFree (l : List Char) (h : commaFree l = true) :
    commaFree (trimLeftC l) = true := by
  induction l with
  | nil => exact h
  | cons x xs ih =>
    rw [commaFree, List.all_cons, Bool.and_eq_true] at h
    cases hx : isJsWs x with
    | true =>
      rw [trimLeftC, List.dropWhile_cons, hx]
      simp only [reduceIte]
      exact ih h.2
    | false =>
      rw [trimLeftC, List.dropWhile_cons, hx]
      simp only [Bool.false_eq_true, reduceIte]
      rw [commaFree, List.all_cons, Bool.and_eq_true]
      exact ⟨h.1, h.2⟩

theorem splitFirstComma_append (a b : List Char) (ha : commaFree a = true) :
    splitFirstComma (a ++ ',' :: b) = some (a, b) := by
  induction a with
  | nil => simp [splitFirstComma]
  | cons x xs ih =>
    rw [commaFree, List.all_cons, Bool.and_eq_true] at ha
    have hx : x = ',' → False := by
      intro hxc
      rw [hxc] at ha
      simp at ha
    rw [List.cons_append, splitFirstComma, if_neg hx, ih ha.2]

theorem cleanOf_comma (pre tail : String) (h : commaFree pre.data = true) :
    cleanOf (pre ++ "," ++ tail) = (jsTrim pre, true) := by
  have hdata : (pre ++ "," ++ tail).data = pre.data ++ ',' :: tail.data := by
    rw [String.data_append, String.data_append]
    rw [show ("," : String).data = [','] from rfl]
    simp
  have htrim : (jsTrim (pre ++ "," ++ tail)).data =
      trimLeftC pre.data ++ ',' :: trimRightC tail.data := by
    show trimRightC (trimLeftC (pre ++ "," ++ tail).data) =
      trimLeftC pre.data ++ ',' :: trimRightC tail.data
    rw [hdata]
    rw [show trimLeftC (pre.data ++ ',' :: tail.data) =
          trimLeftC pre.data ++ ',' :: tail.data from
        dropWhile_append_cons isJsWs pre.data ',' tail.data (by decide)]
    exact trimRightC_append_cons (trimLeftC pre.data) ',' tail.data (by decide)
  rw [cleanOf, htrim,
    splitFirstComma_append _ _ (trimLeftC_commaFree pre.data h)]
  simp only []
  show (String.mk (trimRightC (trimLeftC (trimLeftC pre.data))), true) =
    (String.mk (trimRightC (trimLeftC pre.data)), true)
  rw [show trimLeftC (trimLeftC pre.data) = trimLeftC pre.data from
    dropWhile_self_idem isJsWs pre.data]

theorem append_comma_ne_empty (pre tail : String) : pre ++ "," ++ tail ≠ "" := by
  intro h
  have : (pre ++ "," ++ tail).data = ("" : String).data := by rw [h]
  rw [String.data_append, String.data_append] at this
  simp at this

/-- C5.  For a reference consisting of a comma-free first component, a comma
and an arbitrary remainder, the resolver resolves only the trimmed first
component, and when that component resolves to a verse (its trimmed stored
text being truthy) the result is that verse's text with the truncation
marker appended — for every remainder, which therefore never influences the
verse text returned. -/
theorem comma_resolves_first_component (idx : VerseIdx) (pre tail : String)
    (m : RefMatch) (bi : BookIdx) (t : String)
    (hnc : commaFree pre.data = true)
    (hm : parseRef (jsTrim pre) = some m)
    (hb : alGet idx (stripLowerKey m.book) = some bi)
    (hcv : chainGet bi m.chapter m.verse = some t)
    (ht : t ≠ "") :
    getVerseText (some idx) (some (pre ++ "," ++ tail)) = t ++ " [...]" := by
  simp only [getVerseText]
  rw [if_neg (append_comma_ne_empty pre tail), cleanOf_comma pre tail hnc]
  simp only []
  rw [resolveRef, hm]
  simp only [hb, hcv]
  rw [if_neg ht]
  simp

/-- Witness for C5: `"John 3:16, Luke 2:1"` and `"John 3:16, anything"`
both resolve to verse John 3:16's text with the truncation marker. -/
theorem comma_resolves_first_component_witness :
    getVerseText (some [("john", [("3", [("16", "For God so loved")])])])
        (some ("John 3:16" ++ "," ++ " Luke 2:1")) =
      "For God so loved" ++ " [...]" :=
  comma_resolves_first_component
    [("john", [("3", [("16", "For God so loved")])])]
    "John 3:16" " Luke 2:1"
    ⟨"John", "3", "16", none⟩
    [("3", [("16", "For God so loved")])]
    "For God so loved"
    (by decide) (by decide) (by decide) (by decide) (by decide)

/-- C4, counterexample.  The claim promises the start verse's stored text
plus marker for every range reference whose start verse is present in the
index; but a present verse whose stored text is the empty string fails the
truthiness test on line 128 of `data_fetcher.js`, so the resolver reports
`Verse/Chapter Not Found` instead of returning the stored text with the
marker. -/
theorem range_empty_text_counterexample :
    lookup3 [("john", [("3", [("16", ""), ("17", "Seventeen"), ("18", "Eighteen")])])]
        "john" "3" "16" = some "" ∧
    getVerseText
        (some [("john", [("3", [("16", ""), ("17", "Seventeen"), ("18", "Eighteen")])])])
        (some "John 3:16-18") =
      "[Verse/Chapter Not Found: John 3:16-18]" ∧
    ("[Verse/Chapter Not Found: John 3:16-18]" : String) ≠ "" ++ " [...]" :=
  ⟨rfl, rfl, by decide⟩

/-- C4, amended.  For every comma-free range reference whose book, chapter
and start verse are present in the index with a non-empty stored text, the
resolver returns the start verse's stored text with the truncation marker
appended — never the text of the end verse or of any verse after the start
verse: the range end is captured but ignored for the lookup. -/
theorem range_returns_start_verse_marked (idx : VerseIdx) (rs c : String)
    (m : RefMatch) (ev : String) (bi : BookIdx) (t : String)
    (hrs : rs ≠ "")
    (hclean : cleanOf rs = (c, false))
    (hm : parseRef c = some m)
    (hev : m.endVerse = some ev)
    (hb : alGet idx (stripLowerKey m.book) = some bi)
    (hcv : chainGet bi m.chapter m.verse = some t)
    (ht : t ≠ "") :
    getVerseText (some idx) (some rs) = t ++ " [...]" := by
  simp only [getVerseText]
  rw [if_neg hrs, hclean]
  simp only []
  rw [resolveRef, hm]
  simp only [hb, hcv]
  rw [if_neg ht, hev]
  simp

/-- Witness for C4: `"John 3:16-18"` returns verse 16's text with the
marker, not verse 17's or 18's. -/
theorem range_returns_start_verse_marked_witness :
    getVerseText
        (some [("john", [("3", [("16", "For God so loved"), ("17", "Seventeen"),
                                ("18", "Eighteen")])])])
        (some "John 3:16-18") =
      "For God so loved" ++ " [...]" :=
  range_returns_start_verse_marked
    [("john", [("3", [("16", "For God so loved"), ("17", "Seventeen"),
                      ("18", "Eighteen")])])]
    "John 3:16-18" "John 3:16-18"
    ⟨"John", "3", "16", some "18"⟩ "18"
    [("3", [("16", "For God so loved"), ("17", "Seventeen"), ("18", "Eighteen")])]
    "For God so loved"
    (by decide) (by decide) (by decide) (by decide) (by decide) (by decide)
    (by decide)

theorem indexVersesGo_mk (vs : List SVerse) :
    ∀ acc, indexVersesGo acc (vs.map (fun p => mkVerseJ p.1 p.2)) =
      Except.ok (chIdxGoS acc vs) := by
  induction vs with
  | nil => intro acc; rfl
  | cons p rest ih =>
    obtain ⟨n, t⟩ := p
    intro acc
    simp only [List.map_cons, indexVersesGo, mkVerseJ, getField, getFieldD,
      alGet, chIdxGoS, reduceIte, Option.getD_some]
    exact ih _

theorem indexChaptersGo_mk (cs : List SChapter) :
    ∀ acc, indexChaptersGo acc (cs.map (fun p => mkChapterJ p.1 p.2)) =
      Except.ok (bookIdxGoS acc cs) := by
  induction cs with
  | nil => intro acc; rfl
  | cons p rest ih =>
    obtain ⟨c, vs⟩ := p
    intro acc
    simp only [List.map_cons, indexChaptersGo, mkChapterJ, getField, getFieldD,
      alGet, bookIdxGoS, reduceIte, Option.getD_some, String.reduceEq]
    rw [indexVersesGo_mk vs []]
    simp only []
    exact ih _

theorem indexBooksGo_mk (bs : List SBook) :
    ∀ acc, indexBooksGo acc (bs.map (fun p => mkBookJ p.1 p.2)) =
      Except.ok (booksGoS acc bs) := by
  induction bs with
  | nil => intro acc; rfl
  | cons p rest ih =>
    obtain ⟨n, cs⟩ := p
    intro acc
    simp only [List.map_cons, indexBooksGo, mkBookJ, jsTruthy, getFieldD,
      alGet, booksGoS, reduceIte, Option.getD_some, String.reduceEq,
      Bool.false_eq_true, if_neg]
    rw [indexChaptersGo_mk cs []]
    simp only []
    exact ih _

theorem booksGoS_append (xs ys : List SBook) :
    ∀ acc, booksGoS acc (xs ++ ys) = booksGoS (booksGoS acc xs) ys := by
  induction xs with
  | nil => intro acc; rfl
  | cons p rest ih =>
    obtain ⟨n, cs⟩ := p
    intro acc
    rw [List.cons_append, booksGoS, booksGoS]
    exact ih _

theorem parse_mkDocJ (bs : List SBook) (h : (booksGoS [] bs).isEmpty = false) :
    parseAndIndexBsbData (mkDocJ bs) = Except.ok (booksGoS [] bs) := by
  rw [parseAndIndexBsbData]
  rw [if_neg (show Not (jsTruthy (mkDocJ bs) = false) from by
    simp [mkDocJ, jsTruthy])]
  rw [show getFieldD (mkDocJ bs) "books" =
      JValue.arr (bs.map (fun p => mkBookJ p.1 p.2)) from by
    simp [mkDocJ, getFieldD, alGet]]
  simp only []
  rw [indexBooksGo_mk]
  simp only [h, Bool.false_eq_true, if_neg, reduceIte]

/-- C8.  The indexer derives a book's key as `aliasApply (stripLowerKey name)`
— lower-case, strip all whitespace, substitute the alias table's target when
the stripped name is bound there, else keep the stripped name — and when two
books of the same document normalize to the same key, the later book's
chapter map overwrites the earlier one's entry: the built index binds the
shared key exactly to the second book's chapters. -/
theorem last_writer_wins_on_book_key (n1 n2 : String) (cs1 cs2 : List SChapter)
    (hk : finalKeyOf n1 = finalKeyOf n2)
    (h1 : (bookIdxGoS [] cs1).isEmpty = false)
    (h2 : (bookIdxGoS [] cs2).isEmpty = false) :
    parseAndIndexBsbData (mkDocJ [(n1, cs1), (n2, cs2)]) =
      Except.ok [(aliasApply (stripLowerKey n2), bookIdxGoS [] cs2)] := by
  have hstep : booksGoS [] [(n1, cs1), (n2, cs2)] =
      [(finalKeyOf n2, bookIdxGoS [] cs2)] := by
    rw [booksGoS]
    simp only [h1, Bool.false_eq_true, if_neg, reduceIte]
    rw [booksGoS]
    simp only [h2, Bool.false_eq_true, if_neg, reduceIte]
    simp only [alSet, hk, reduceIte]
    rfl
  rw [parse_mkDocJ [(n1, cs1), (n2, cs2)] (by rw [hstep]; rfl), hstep]
  rw [finalKeyOf]

/-- Witness for C8: "Song of Solomon" and "Song of Songs" both canonicalize
to the key `songofsongs`; the index built from a document holding both books
binds that key to the second book's chapters. -/
theorem last_writer_wins_on_book_key_witness :
    parseAndIndexBsbData (mkDocJ [("Song of Solomon", [(1, [(1, "first text")])]),
                                  ("Song of Songs", [(1, [(1, "second text")])])]) =
      Except.ok [(aliasApply (stripLowerKey "Song of Songs"),
                  bookIdxGoS [] [(1, [(1, "second text")])])] :=
  last_writer_wins_on_book_key "Song of Solomon" "Song of Songs"
    [(1, [(1, "first text")])] [(1, [(1, "second text")])]
    (by decide) (by decide) (by decide)

/-- C7, counterexample.  A book named "I Samuel" is indexed under `1samuel`
via the alias table, and its chapter 2 verse 1 is present; but when the
verse's source text is whitespace-only its stored (trimmed) text is the
empty string, which fails the resolver's truthiness test: the claim's
promised "stored text rather than a lookup failure" does not hold — the
resolver reports the lookup failure instead. -/
theorem alias_build_empty_text_counterexample :
    parseAndIndexBsbData (mkDocJ [("I Samuel", [(2, [(1, " ")])])]) =
      Except.ok [("1samuel", [("2", [("1", "")])])] ∧
    getVerseText (some [("1samuel", [("2", [("1", "")])])])
        (some "1 Samuel 2:1") =
      "[Verse/Chapter Not Found: 1 Samuel 2:1]" :=
  ⟨rfl, rfl⟩

/-- C7, amended.  Build a document from any books followed by one whose raw
name canonicalizes through the alias table to `1samuel` and which holds
chapter 2 verse 1 with a non-empty trimmed text: the build indexes that
verse under `1samuel`, and `"1 Samuel 2:1"` then resolves to exactly that
stored text (if its trimmed text were empty, the resolver would instead
report `Verse/Chapter Not Found`). -/
theorem alias_build_then_resolve (bs : List SBook) (rawName t : String)
    (halias : alGet bookNameMappings (stripLowerKey rawName) = some "1samuel")
    (ht : jsTrim t ≠ "") :
    parseAndIndexBsbData (mkDocJ (bs ++ [(rawName, [(2, [(1, t)])])])) =
      Except.ok (alSet (booksGoS [] bs) "1samuel" [("2", [("1", jsTrim t)])]) ∧
    getVerseText
        (some (alSet (booksGoS [] bs) "1samuel" [("2", [("1", jsTrim t)])]))
        (some "1 Samuel 2:1") = jsTrim t := by
  have hkey : finalKeyOf rawName = "1samuel" := by
    simp [finalKeyOf, aliasApply, halias]
  have hbi : bookIdxGoS [] [((2 : Int), [((1 : Int), t)])] =
      [("2", [("1", jsTrim t)])] := by
    simp [bookIdxGoS, chIdxGoS, alSet,
      show toString (1 : Int) = "1" from rfl,
      show toString (2 : Int) = "2" from rfl]
  have hbooks : booksGoS [] (bs ++ [(rawName, [(2, [(1, t)])])]) =
      alSet (booksGoS [] bs) "1samuel" [("2", [("1", jsTrim t)])] := by
    rw [booksGoS_append, booksGoS, hbi]
    simp only [List.isEmpty_cons, Bool.false_eq_true, if_neg, reduceIte]
    rw [hkey, booksGoS]
  constructor
  · rw [parse_mkDocJ _ (by rw [hbooks]; exact alSet_isEmpty _ _ _), hbooks]
  · simp only [getVerseText, if_neg (show Not ("1 Samuel 2:1" = "") from by decide)]
    rw [show cleanOf "1 Samuel 2:1" = ("1 Samuel 2:1", false) from rfl]
    simp only []
    rw [resolveRef,
      show parseRef "1 Samuel 2:1" =
        some ⟨"1 Samuel", "2", "1", none⟩ from rfl]
    simp only []
    rw [show stripLowerKey "1 Samuel" = "1samuel" from rfl]
    rw [alGet_alSet_self]
    simp only [chainGet, alGet, String.reduceEq, reduceIte]
    rw [if_neg ht]
    simp

/-- Witness for C7: a single-book document named "I Samuel" with chapter 2
verse 1 and text "My heart rejoices" builds to an index keyed `1samuel`,
and `"1 Samuel 2:1"` resolves to that text. -/
theorem alias_build_then_resolve_witness :
    parseAndIndexBsbData (mkDocJ [("I Samuel", [(2, [(1, "My heart rejoices")])])]) =
      Except.ok (alSet (booksGoS [] []) "1samuel"
        [("2", [("1", jsTrim "My heart rejoices")])]) ∧
    getVerseText
        (some (alSet (booksGoS [] []) "1samuel"
          [("2", [("1", jsTrim "My heart rejoices")])]))
        (some "1 Samuel 2:1") = jsTrim "My heart rejoices" :=
  alias_build_then_resolve [] "I Samuel" "My heart rejoices"
    (by decide) (by decide)

/-- C9.  If a fetch-and-build fails (fetch rejection or build error), the
module state afterwards has no index: `isBsbDataReady` is `false` and every
`getVerseText` call returns the not-ready marker, for every reference; and
whenever the operation succeeds, the exposed index is exactly the result of
a complete successful `parseAndIndexBsbData` run on the fetched document —
no partially built structure is ever stored. -/
theorem failed_build_leaves_not_ready (st : FetcherState) (fres : Option JValue) :
    ((fetchAndParseBsbData st fres).2 = false →
      (fetchAndParseBsbData st fres).1.parsedBsbData = none ∧
      isBsbDataReady (fetchAndParseBsbData st fres).1 = false ∧
      ∀ ref, getVerseText (fetchAndParseBsbData st fres).1.parsedBsbData ref =
        "[BSB Data Not Ready]") ∧
    ((fetchAndParseBsbData st fres).2 = true →
      ∃ j idx, fres = some j ∧ parseAndIndexBsbData j = Except.ok idx ∧
        (fetchAndParseBsbData st fres).1.parsedBsbData = some idx ∧
        isBsbDataReady (fetchAndParseBsbData st fres).1 = true) := by
  cases fres with
  | none =>
    refine ⟨fun _ => ⟨rfl, rfl, fun ref => rfl⟩, fun h => ?_⟩
    simp [fetchAndParseBsbData] at h
  | some j =>
    cases hp : parseAndIndexBsbData j with
    | ok idx =>
      refine ⟨fun h => ?_, fun _ => ⟨j, idx, rfl, hp, ?_, ?_⟩⟩
      · simp [fetchAndParseBsbData, hp] at h
      · simp [fetchAndParseBsbData, hp]
      · simp [fetchAndParseBsbData, hp, isBsbDataReady]
    | error e =>
      refine ⟨fun _ => ⟨?_, ?_, fun ref => ?_⟩, fun h => ?_⟩
      · simp [fetchAndParseBsbData, hp]
      · simp [fetchAndParseBsbData, hp, isBsbDataReady]
      · simp [fetchAndParseBsbData, hp, getVerseText]
      · simp [fetchAndParseBsbData, hp] at h

/-- Witness for C9: after a failed fetch from the initial state, readiness
is `false` and a lookup returns the not-ready marker. -/
theorem failed_build_leaves_not_ready_witness :
    isBsbDataReady
        (fetchAndParseBsbData ⟨[], none, JValue.str "[Unknown]"⟩ none).1 = false ∧
    getVerseText
        (fetchAndParseBsbData ⟨[], none, JValue.str "[Unknown]"⟩ none).1.parsedBsbData
        (some "John 3:16") = "[BSB Data Not Ready]" :=
  ⟨((failed_build_leaves_not_ready ⟨[], none, JValue.str "[Unknown]"⟩ none).1
      rfl).2.1,
   ((failed_build_leaves_not_ready ⟨[], none, JValue.str "[Unknown]"⟩ none).1
      rfl).2.2 (some "John 3:16")⟩

theorem hGet_append_left (a b : Heap) (r : Nat) (hr : r < a.length) :
    hGet (a ++ b) r = hGet a r := by
  induction a generalizing r with
  | nil => simp at hr
  | cons x xs ih =>
    cases r with
    | zero => rfl
    | succ n =>
      rw [List.cons_append, hGet, hGet]
      exact ih n (by simpa using hr)

theorem hGet_append_length (a : Heap) (x : List String) :
    hGet (a ++ [x]) a.length = some x := by
  induction a with
  | nil => rfl
  | cons y ys ih => simpa [hGet] using ih

theorem hSet_append_length (a : Heap) (x v : List String) :
    hSet (a ++ [x]) a.length v = a ++ [v] := by
  induction a with
  | nil => rfl
  | cons y ys ih => simpa [hSet] using ih

theorem hGet_isSome_of_lt (a : Heap) (r : Nat) (hr : r < a.length) :
    ∃ w, hGet a r = some w := by
  induction a generalizing r with
  | nil => simp at hr
  | cons x xs ih =>
    cases r with
    | zero => exact ⟨x, rfl⟩
    | succ n => exact ih n (by simpa using hr)

/-- C10.  `getAvailableCategories` allocates a fresh array (its reference
differs from the module's), whose contents equal the module array's at call
time; arbitrarily mutating the returned array leaves the module array
unchanged, and a later `getAvailableCategories` call still returns the same
elements as before the mutation. -/
theorem categories_copy_isolated (h : Heap) (r : Nat) (v : List String)
    (hr : r < h.length) :
    (getAvailableCategories h r).2 ≠ r ∧
    hGet (getAvailableCategories h r).1 (getAvailableCategories h r).2 =
      hGet h r ∧
    hGet (hSet (getAvailableCategories h r).1
      (getAvailableCategories h r).2 v) r = hGet h r ∧
    hGet (getAvailableCategories
        (hSet (getAvailableCategories h r).1 (getAvailableCategories h r).2 v) r).1
      (getAvailableCategories
        (hSet (getAvailableCategories h r).1 (getAvailableCategories h r).2 v) r).2 =
      hGet h r := by
  obtain ⟨w, hw⟩ := hGet_isSome_of_lt h r hr
  have hmut : hSet (getAvailableCategories h r).1
      (getAvailableCategories h r).2 v = h ++ [v] := by
    simp only [getAvailableCategories]
    exact hSet_append_length h _ v
  refine ⟨?_, ?_, ?_, ?_⟩
  · simp only [getAvailableCategories]
    omega
  · simp only [getAvailableCategories]
    rw [hGet_append_length, hw]
    rfl
  · rw [hmut]
    exact hGet_append_left h [v] r hr
  · rw [hmut]
    simp only [getAvailableCategories]
    rw [hGet_append_length, hGet_append_left h [v] r hr, hw]
    rfl

/-- Witness for C10: mutating the array returned for the one-array heap
leaves the stored category list unchanged, and the returned reference is
fresh. -/
theorem categories_copy_isolated_witness :
    hGet (hSet (getAvailableCategories [["a", "b"]] 0).1
      (getAvailableCategories [["a", "b"]] 0).2 ["mutated"]) 0 =
      hGet [["a", "b"]] 0 ∧
    (getAvailableCategories [["a", "b"]] 0).2 ≠ 0 :=
  ⟨(categories_copy_isolated [["a", "b"]] 0 ["mutated"] (by decide)).2.2.1,
   (categories_copy_isolated [["a", "b"]] 0 ["mutated"] (by decide)).1⟩
